import Mathlib

/-
Shallow embedding of the real-time order-management helpers verified here:
the bounded expiring LRU cache (AdvancedCache in
order-ui/src/hooks/useAdvancedFeatures.ts), the optimistic mutation hooks
(useOptimisticUpdates), the websocket reconnect backoff handler
(useWebSocket), and the server-side broadcast fan-out
(order-service/src/services/websocketService.ts).

JavaScript Maps and Sets are modelled as association lists / key lists in
insertion order, which is exactly the iteration order the source relies on
for LRU bookkeeping.  Date.now() is passed as an explicit Nat parameter.
-/

section AssocMap

variable {β : Type}

/-- Lookup in an insertion-ordered association list (JS Map.get). -/
def mapGet (k : String) : List (String × β) → Option β
  | [] => none
  | (k1, v) :: rest => if k1 = k then some v else mapGet k rest

/-- JS Map.set: replaces the value in place if the key is present, otherwise
appends the new binding at the end (insertion order). -/
def mapSet (k : String) (v : β) : List (String × β) → List (String × β)
  | [] => [(k, v)]
  | (k1, v1) :: rest => if k1 = k then (k, v) :: rest else (k1, v1) :: mapSet k v rest

/-- JS Map.delete: removes the (unique) binding for the key, if present. -/
def mapDelete (k : String) : List (String × β) → List (String × β)
  | [] => []
  | (k1, v1) :: rest => if k1 = k then rest else (k1, v1) :: mapDelete k rest

/-- JS Set.delete on a set of strings kept in insertion order. -/
def eraseKey (k : String) : List String → List String
  | [] => []
  | k1 :: rest => if k1 = k then rest else k1 :: eraseKey k rest

end AssocMap

/-- Configuration of the AdvancedCache (maxAge in ms, maxSize in entries). -/
structure CacheConfig where
  maxAge : Nat
  maxSize : Nat
deriving DecidableEq, Repr

/-- One stored cache entry, as in the CacheItem interface of the source. -/
structure CacheItem (T : Type) where
  data : T
  timestamp : Nat
  expiresAt : Nat
  key : String
deriving DecidableEq, Repr

/-- The AdvancedCache state: the backing Map (insertion order), the
accessOrder Set (least recently used first), and the configuration. -/
structure AdvancedCache (T : Type) where
  cache : List (String × CacheItem T)
  accessOrder : List String
  config : CacheConfig
deriving DecidableEq, Repr

/-- A snapshot entry as produced by AdvancedCache.export (data plus the
original timestamps; the key is the field name in the exported record). -/
structure SnapshotEntry (T : Type) where
  data : T
  timestamp : Nat
  expiresAt : Nat
deriving DecidableEq, Repr

namespace AdvancedCache

variable {T : Type}

/-- A cache as built by the constructor: empty maps, given config. -/
def emptyCache (cfg : CacheConfig) : AdvancedCache T := ⟨[], [], cfg⟩

/-- updateAccessOrder: Set.delete then Set.add, moving the key to the
most-recently-used end. -/
def updateAccessOrder (k : String) (ord : List String) : List String :=
  eraseKey k ord ++ [k]

/-- An entry survives the expiry checks when now is not strictly past its
expiresAt timestamp (the source tests Date.now() > item.expiresAt). -/
def liveB (now : Nat) (it : CacheItem T) : Bool := decide (now ≤ it.expiresAt)

/-- Whether a key of the accessOrder set survives cleanup: it is removed
exactly when its cache entry is expired. -/
def keyLiveB (now : Nat) (cache : List (String × CacheItem T)) (k : String) : Bool :=
  match mapGet k cache with
  | some it => liveB now it
  | none => true

/-- cleanup: sweeps every already-expired entry out of both the Map and the
accessOrder Set. -/
def cleanup (now : Nat) (c : AdvancedCache T) : AdvancedCache T :=
  { c with cache := c.cache.filter (fun p => liveB now p.2),
           accessOrder := c.accessOrder.filter (keyLiveB now c.cache) }

/-- delete: removes the key from the Map and the accessOrder Set. -/
def deleteKey (k : String) (c : AdvancedCache T) : AdvancedCache T :=
  { c with cache := mapDelete k c.cache, accessOrder := eraseKey k c.accessOrder }

/-- set: sweep expired entries, evict the head of accessOrder when at
capacity (skipped by the source when that key is the empty string, which is
falsy in JavaScript, or when the set is empty), then store the entry and
touch recency.  A customMaxAge of 0 is falsy and falls back to the default. -/
def set (key : String) (data : T) (customMaxAge : Option Nat) (now : Nat)
    (c : AdvancedCache T) : AdvancedCache T :=
  let maxAge := match customMaxAge with
    | some m => if m = 0 then c.config.maxAge else m
    | none => c.config.maxAge
  let c1 := cleanup now c
  let c2 :=
    if c1.cache.length ≥ c1.config.maxSize then
      match c1.accessOrder.head? with
      | some lruKey => if lruKey = "" then c1 else deleteKey lruKey c1
      | none => c1
    else c1
  let item : CacheItem T := ⟨data, now, now + maxAge, key⟩
  { c2 with cache := mapSet key item c2.cache,
            accessOrder := updateAccessOrder key c2.accessOrder }

/-- get: absent keys return null; expired entries are deleted on discovery
and return null; live entries touch recency and return the data. -/
def get (key : String) (now : Nat) (c : AdvancedCache T) :
    Option T × AdvancedCache T :=
  match mapGet key c.cache with
  | none => (none, c)
  | some item =>
    if item.expiresAt < now then (none, deleteKey key c)
    else (some item.data, { c with accessOrder := updateAccessOrder key c.accessOrder })

/-- has: same expiry semantics as get but does not touch recency. -/
def hasKey (key : String) (now : Nat) (c : AdvancedCache T) :
    Bool × AdvancedCache T :=
  match mapGet key c.cache with
  | none => (false, c)
  | some item =>
    if item.expiresAt < now then (false, deleteKey key c)
    else (true, c)

/-- clear: unconditional removal of everything. -/
def clear (c : AdvancedCache T) : AdvancedCache T := ⟨[], [], c.config⟩

/-- getAllKeys: sweep, then list the remaining keys. -/
def getAllKeys (now : Nat) (c : AdvancedCache T) :
    List String × AdvancedCache T :=
  let c1 := cleanup now c
  (c1.cache.map Prod.fst, c1)

/-- export: serializes every non-expired entry with its original
timestamps.  The cache itself is not mutated. -/
def exportCache (now : Nat) (c : AdvancedCache T) :
    List (String × SnapshotEntry T) :=
  c.cache.filterMap (fun p =>
    if now ≤ p.2.expiresAt then some (p.1, ⟨p.2.data, p.2.timestamp, p.2.expiresAt⟩)
    else none)

/-- One step of import: the source guard is
`if (item.expiresAt && now <= item.expiresAt)`, so an expiresAt of 0 is
falsy and skipped.  There is no capacity check. -/
def importOne (now : Nat) (c : AdvancedCache T) (p : String × SnapshotEntry T) :
    AdvancedCache T :=
  if p.2.expiresAt ≠ 0 ∧ now ≤ p.2.expiresAt then
    { c with cache := mapSet p.1 ⟨p.2.data, p.2.timestamp, p.2.expiresAt, p.1⟩ c.cache,
             accessOrder := updateAccessOrder p.1 c.accessOrder }
  else c

/-- import: folds importOne over the snapshot entries in order. -/
def importCache (now : Nat) (data : List (String × SnapshotEntry T))
    (c : AdvancedCache T) : AdvancedCache T :=
  data.foldl (importOne now) c

/-- Well-formedness of a cache state, maintained by the source as a runtime
invariant of the JS Map and Set: keys are unique, the accessOrder set holds
exactly the cached keys, and each entry records its own key. -/
def wf (c : AdvancedCache T) : Prop :=
  (c.cache.map Prod.fst).Nodup ∧
  c.accessOrder.Nodup ∧
  (∀ k ∈ c.accessOrder, k ∈ c.cache.map Prod.fst) ∧
  (∀ k ∈ c.cache.map Prod.fst, k ∈ c.accessOrder) ∧
  (∀ p ∈ c.cache, (p.2).key = p.1)

instance (c : AdvancedCache T) : Decidable (wf c) := by
  unfold wf
  infer_instance

/-- The operations of the cache, as invoked through its public surface.
restore (import) is deliberately a separate entry point below because the
source enforces no capacity bound there. -/
inductive CacheOp (T : Type) where
  | setOp (key : String) (data : T) (customMaxAge : Option Nat)
  | getOp (key : String)
  | hasOp (key : String)
  | deleteOp (key : String)
  | clearOp
  | keysOp
  | snapshotOp

/-- The state reached after one public cache operation (snapshot does not
mutate the state). -/
def applyOp (now : Nat) (c : AdvancedCache T) : CacheOp T → AdvancedCache T
  | .setOp k v m => set k v m now c
  | .getOp k => (get k now c).2
  | .hasOp k => (hasKey k now c).2
  | .deleteOp k => deleteKey k c
  | .clearOp => clear c
  | .keysOp => (getAllKeys now c).2
  | .snapshotOp => c

end AdvancedCache

/-- Operation kinds tracked by useOptimisticUpdates. -/
inductive OpKind where
  | create
  | update
  | delete
deriving DecidableEq, Repr

/-- One tracked in-flight optimistic mutation (the values stored in the
optimisticOperations Map of the hook). -/
structure OptimisticOperation (T : Type) where
  type : OpKind
  originalData : Option T
  newData : Option T
  timestamp : Nat
deriving DecidableEq, Repr

/-- Local state of the useOptimisticUpdates hook: the data list and the Map
of tracked operations keyed by item key. -/
structure OptState (T : Type) where
  data : List T
  ops : List (String × OptimisticOperation T)
deriving DecidableEq, Repr

/-- The complete optimisticUpdate flow of the hook, from invocation through
settlement of the wrapped server call.  serverResult is the settled outcome
of that call; the Option E output is the error re-raised by the catch
handler after rollback and cleanup, and the Bool output records whether the
server call was invoked at all.  When no item carries the key the source
returns before mutating anything. -/
def optimisticUpdate {T E : Type} (keyOf : T → String) (updatedItem : T)
    (serverResult : Except E T) (t : Nat) (s : OptState T) :
    OptState T × Option E × Bool :=
  match s.data.find? (fun item => decide (keyOf item = keyOf updatedItem)) with
  | none => (s, none, false)
  | some originalItem =>
    let key := keyOf updatedItem
    let d1 := s.data.map (fun item => if keyOf item = key then updatedItem else item)
    let ops1 := mapSet key ⟨OpKind.update, some originalItem, some updatedItem, t⟩ s.ops
    match serverResult with
    | Except.ok serverItem =>
      (⟨d1.map (fun item => if keyOf item = key then serverItem else item),
        mapDelete key ops1⟩, none, true)
    | Except.error e =>
      (⟨d1.map (fun item => if keyOf item = key then originalItem else item),
        mapDelete key ops1⟩, some e, true)

/-- The complete optimisticDelete flow of the hook, analogous to
optimisticUpdate: on rejection the retained original item is appended back
onto the filtered list. -/
def optimisticDelete {T E : Type} (keyOf : T → String) (itemKey : String)
    (serverResult : Except E Unit) (t : Nat) (s : OptState T) :
    OptState T × Option E × Bool :=
  match s.data.find? (fun item => decide (keyOf item = itemKey)) with
  | none => (s, none, false)
  | some originalItem =>
    let d1 := s.data.filter (fun item => !decide (keyOf item = itemKey))
    let ops1 := mapSet itemKey ⟨OpKind.delete, some originalItem, none, t⟩ s.ops
    match serverResult with
    | Except.ok _ => (⟨d1, mapDelete itemKey ops1⟩, none, true)
    | Except.error e => (⟨d1 ++ [originalItem], mapDelete itemKey ops1⟩, some e, true)

/-- The connection state of the useWebSocket hook. -/
structure ConnectionState where
  isConnected : Bool
  isConnecting : Bool
  error : Option String
  reconnectAttempts : Nat
deriving DecidableEq, Repr

/-- The fixed retry ceiling of the hook. -/
def maxReconnectAttempts : Nat := 5

/-- The base reconnect delay of the hook, in milliseconds. -/
def reconnectDelay : Nat := 2000

/-- The connect_error handler of useWebSocket: records the error, flips
isConnecting off, increments the attempt counter, and either schedules one
retry of connect after reconnectDelay * 2 ^ attempts milliseconds (while
the pre-increment counter is below the ceiling) or surfaces the terminal
user-visible failure toast and schedules nothing.  Outputs: the new state,
the scheduled retry delay if any, and whether the terminal failure was
surfaced. -/
def onConnectError (errMsg : String) (st : ConnectionState) :
    ConnectionState × Option Nat × Bool :=
  let st1 : ConnectionState :=
    { st with isConnecting := false, error := some errMsg,
              reconnectAttempts := st.reconnectAttempts + 1 }
  if st.reconnectAttempts < maxReconnectAttempts then
    (st1, some (reconnectDelay * 2 ^ st.reconnectAttempts), false)
  else
    (st1, none, true)

/-- Outcome trace of n consecutive connect failures: for each failure, the
scheduled retry delay (if any) and whether the terminal failure was
surfaced on that failure. -/
def runFailures (errMsg : String) : Nat → ConnectionState → List (Option Nat × Bool)
  | 0, _ => []
  | n + 1, st =>
    ((onConnectError errMsg st).2.1, (onConnectError errMsg st).2.2) ::
      runFailures errMsg n (onConnectError errMsg st).1

/-- The update kinds carried by an OrderUpdate event. -/
inductive UpdateType where
  | created
  | updated
  | deleted
  | status_changed
deriving DecidableEq, Repr

/-- The wire string of an update type, as used in the notification
template. -/
def UpdateType.wireName : UpdateType → String
  | .created => "created"
  | .updated => "updated"
  | .deleted => "deleted"
  | .status_changed => "status_changed"

/-- The OrderUpdate event shape shared by server and client. -/
structure OrderUpdate where
  orderId : String
  status : String
  customerName : String
  timestamp : String
  amount : Int
  type : UpdateType
deriving DecidableEq, Repr

/-- Notification severities. -/
inductive Severity where
  | success
  | warning
  | error
  | info
deriving DecidableEq, Repr

/-- The NotificationMessage shape. -/
structure NotificationMessage where
  id : String
  title : String
  message : String
  type : Severity
  timestamp : String
  userId : Option String
  orderId : Option String
deriving DecidableEq, Repr

/-- The NotificationMessage synthesized by broadcastOrderUpdate.  The uuid
and the ISO timestamp are nondeterministic inputs of the environment and
are passed explicitly. -/
def mkOrderNotification (uid ts : String) (u : OrderUpdate) : NotificationMessage :=
  { id := uid
    title := "Order " ++ (u.type.wireName.replace "_" " ").toUpper
    message := "Order " ++ ((u.orderId.splitOn "-").headD "") ++
      "... has been " ++ (u.type.wireName.replace "_" " ")
    type := match u.type with
      | UpdateType.created => Severity.success
      | UpdateType.deleted => Severity.warning
      | _ => Severity.info
    timestamp := ts
    userId := none
    orderId := some u.orderId }

/-- A message pushed by the server, tagged with its target room. -/
inductive Emission where
  | orderUpdate (room : String) (u : OrderUpdate)
  | orderDetailUpdate (room : String) (u : OrderUpdate) (detailedInfo : Bool)
  | notificationMsg (room : String) (n : NotificationMessage)
  | bulkOrderUpdate (room : String) (us : List OrderUpdate)
deriving DecidableEq, Repr

/-- The room an emission is addressed to. -/
def Emission.room : Emission → String
  | .orderUpdate r _ => r
  | .orderDetailUpdate r _ _ => r
  | .notificationMsg r _ => r
  | .bulkOrderUpdate r _ => r

/-- WebSocketService.broadcastOrderUpdate: the verbatim event to the
authenticated room, the enriched detail-scoped copy to the room named
after the order id, and the synthesized notification to the authenticated
room, in that order. -/
def broadcastOrderUpdate (uid ts : String) (u : OrderUpdate) : List Emission :=
  [Emission.orderUpdate "authenticated_users" u,
   Emission.orderDetailUpdate ("order_" ++ u.orderId) u true,
   Emission.notificationMsg "authenticated_users" (mkOrderNotification uid ts u)]

/-- WebSocketService.broadcastBulkUpdate: a single push of the whole update
array to the authenticated room. -/
def broadcastBulkUpdate (us : List OrderUpdate) : List Emission :=
  [Emission.bulkOrderUpdate "authenticated_users" us]

/-- One connected client socket together with the rooms it has joined. -/
structure ClientConn where
  id : String
  rooms : List String
deriving DecidableEq, Repr

/-- The emissions a socket receives: exactly those addressed to a room it
is currently a member of, in emission order. -/
def deliveredTo (s : ClientConn) (ems : List Emission) : List Emission :=
  ems.filter (fun em => decide (em.room ∈ s.rooms))

/-- The two message forms through which the client receives order changes;
the useWebSocket hook registers a distinct handler for each. -/
inductive ClientMsg where
  | order_update (u : OrderUpdate)
  | bulk_order_update (us : List OrderUpdate)
deriving DecidableEq, Repr

/-- JS Array.prototype.slice with start index 0: a nonnegative end index
keeps that many leading elements (clamped at the length), a negative end
index counts back from the end of the array (clamped at 0). -/
def jsSliceTo {α : Type} (e : Int) (l : List α) : List α :=
  if e < 0 then l.take (l.length - (-e).toNat)
  else l.take e.toNat

/-- The client orderUpdates list update: the singular handler prepends one
update keeping prev.slice(0, 49), the bulk handler prepends the whole
array in one step keeping prev.slice(0, 50 - updates.length) — with the
JS semantics of a possibly negative end index. -/
def applyOrderUpdatesMsg : ClientMsg → List OrderUpdate → List OrderUpdate
  | .order_update u, prev => u :: prev.take 49
  | .bulk_order_update us, prev => us ++ jsSliceTo (50 - (us.length : Int)) prev

section AssocMapLemmas

variable {β : Type}

theorem mapGet_eq_none_iff {k : String} {l : List (String × β)} :
    mapGet k l = none ↔ k ∉ l.map Prod.fst := by
  induction l with
  | nil => simp [mapGet]
  | cons p rest ih =>
    obtain ⟨k1, v⟩ := p
    by_cases h : k1 = k
    · subst h; simp [mapGet]
    · simp [mapGet, h, ih, Ne.symm h]

theorem mapGet_isSome_of_mem_keys {k : String} {l : List (String × β)}
    (h : k ∈ l.map Prod.fst) : ∃ v, mapGet k l = some v := by
  cases hg : mapGet k l with
  | none => exact absurd (mapGet_eq_none_iff.mp hg) (by simp [h])
  | some v => exact ⟨v, rfl⟩

theorem mem_of_mapGet_eq_some {k : String} {v : β} {l : List (String × β)}
    (h : mapGet k l = some v) : (k, v) ∈ l := by
  induction l with
  | nil => simp [mapGet] at h
  | cons p rest ih =>
    obtain ⟨k1, v1⟩ := p
    by_cases hk : k1 = k
    · subst hk
      simp [mapGet] at h
      simp [h]
    · simp [mapGet, hk] at h
      exact List.mem_cons_of_mem _ (ih h)

theorem mapGet_eq_some_of_mem {k : String} {v : β} {l : List (String × β)}
    (hnd : (l.map Prod.fst).Nodup) (h : (k, v) ∈ l) : mapGet k l = some v := by
  induction l with
  | nil => simp at h
  | cons p rest ih =>
    obtain ⟨k1, v1⟩ := p
    rw [List.map_cons, List.nodup_cons] at hnd
    rcases List.mem_cons.mp h with h1 | h1
    · injection h1 with hk hv
      subst hk
      subst hv
      simp [mapGet]
    · have hk : k1 ≠ k := by
        rintro rfl
        exact hnd.1 (List.mem_map.mpr ⟨(k1, v), h1, rfl⟩)
      simp [mapGet, hk, ih hnd.2 h1]

theorem mapGet_mapSet_self {k : String} {v : β} {l : List (String × β)} :
    mapGet k (mapSet k v l) = some v := by
  induction l with
  | nil => simp [mapSet, mapGet]
  | cons p rest ih =>
    obtain ⟨k1, v1⟩ := p
    by_cases h : k1 = k <;> simp [mapSet, mapGet, h, ih]

theorem mapGet_mapSet_ne {k k' : String} {v : β} {l : List (String × β)}
    (h : k' ≠ k) : mapGet k' (mapSet k v l) = mapGet k' l := by
  induction l with
  | nil => simp [mapSet, mapGet, Ne.symm h]
  | cons p rest ih =>
    obtain ⟨k1, v1⟩ := p
    by_cases h1 : k1 = k
    · subst h1
      simp [mapSet, mapGet, Ne.symm h, show k1 ≠ k' from Ne.symm h]
    · by_cases h2 : k1 = k' <;> simp [mapSet, mapGet, h1, h2, h, ih]

theorem mapSet_length_le {k : String} {v : β} {l : List (String × β)} :
    (mapSet k v l).length ≤ l.length + 1 := by
  induction l with
  | nil => simp [mapSet]
  | cons p rest ih =>
    obtain ⟨k1, v1⟩ := p
    by_cases h : k1 = k <;> simp [mapSet, h] <;> omega

theorem mapDelete_length {k : String} {l : List (String × β)}
    (h : k ∈ l.map Prod.fst) : (mapDelete k l).length + 1 = l.length := by
  induction l with
  | nil => simp at h
  | cons p rest ih =>
    obtain ⟨k1, v1⟩ := p
    by_cases hk : k1 = k
    · simp [mapDelete, hk]
    · simp at h
      rcases h with h | h
      · exact absurd h.symm hk
      · simp [mapDelete, hk, ← ih (by simpa using h)]

theorem mapDelete_length_le {k : String} {l : List (String × β)} :
    (mapDelete k l).length ≤ l.length := by
  induction l with
  | nil => simp [mapDelete]
  | cons p rest ih =>
    obtain ⟨k1, v1⟩ := p
    by_cases hk : k1 = k <;> simp [mapDelete, hk] <;> omega

theorem mapGet_mapDelete_self {k : String} {l : List (String × β)}
    (hnd : (l.map Prod.fst).Nodup) : mapGet k (mapDelete k l) = none := by
  induction l with
  | nil => simp [mapDelete, mapGet]
  | cons p rest ih =>
    obtain ⟨k1, v1⟩ := p
    simp at hnd
    by_cases hk : k1 = k
    · subst hk
      simp [mapDelete]
      exact mapGet_eq_none_iff.mpr (by simpa using hnd.1)
    · simp [mapDelete, hk, mapGet, ih hnd.2]

theorem mapGet_mapDelete_ne {k k' : String} {l : List (String × β)}
    (h : k' ≠ k) : mapGet k' (mapDelete k l) = mapGet k' l := by
  induction l with
  | nil => simp [mapDelete]
  | cons p rest ih =>
    obtain ⟨k1, v1⟩ := p
    by_cases h1 : k1 = k
    · subst h1
      simp [mapDelete, mapGet, show k1 ≠ k' from Ne.symm h]
    · by_cases h2 : k1 = k' <;> simp [mapDelete, mapGet, h1, h2, h, ih]

theorem not_mem_eraseKey_self {k : String} {l : List String}
    (hnd : l.Nodup) : k ∉ eraseKey k l := by
  induction l with
  | nil => simp [eraseKey]
  | cons k1 rest ih =>
    simp at hnd
    by_cases hk : k1 = k
    · subst hk
      simpa [eraseKey] using hnd.1
    · simp [eraseKey, hk, Ne.symm hk, ih hnd.2]

theorem mapSet_keys_nodup {k : String} {v : β} {l : List (String × β)}
    (hnd : (l.map Prod.fst).Nodup) : ((mapSet k v l).map Prod.fst).Nodup := by
  induction l with
  | nil => simp [mapSet]
  | cons p rest ih =>
    obtain ⟨k1, v1⟩ := p
    simp at hnd
    by_cases hk : k1 = k
    · subst hk
      simpa [mapSet] using hnd
    · have hk2 : k1 ∉ (mapSet k v rest).map Prod.fst := by
        intro hmem
        rcases mapGet_isSome_of_mem_keys hmem with ⟨w, hw⟩
        by_cases he : k1 = k
        · exact hk he
        · rw [mapGet_mapSet_ne he] at hw
          exact hnd.1 w (by simpa using mem_of_mapGet_eq_some hw)
      simp [mapSet, hk]
      exact ⟨by simpa using hk2, ih hnd.2⟩

end AssocMapLemmas

namespace AdvancedCache

variable {T : Type}

theorem cleanup_cache_sublist (now : Nat) (c : AdvancedCache T) :
    List.Sublist (cleanup now c).cache c.cache :=
  List.filter_sublist _

theorem cleanup_keys_nodup (now : Nat) (c : AdvancedCache T)
    (h : (c.cache.map Prod.fst).Nodup) :
    ((cleanup now c).cache.map Prod.fst).Nodup :=
  List.Nodup.sublist (List.Sublist.map Prod.fst (cleanup_cache_sublist now c)) h

theorem mem_cleanup_accessOrder_iff (now : Nat) (c : AdvancedCache T)
    (hwf : wf c) (k : String) :
    k ∈ (cleanup now c).accessOrder ↔ k ∈ (cleanup now c).cache.map Prod.fst := by
  constructor
  · intro hk
    have hk' : k ∈ c.accessOrder.filter (keyLiveB now c.cache) := hk
    obtain ⟨hk1, hk2⟩ := List.mem_filter.mp hk'
    have hkeys := hwf.2.2.1 k hk1
    obtain ⟨it, hit⟩ := mapGet_isSome_of_mem_keys hkeys
    rw [keyLiveB, hit] at hk2
    have hmem := mem_of_mapGet_eq_some hit
    have hmem2 : (k, it) ∈ (cleanup now c).cache := List.mem_filter.mpr ⟨hmem, hk2⟩
    exact List.mem_map.mpr ⟨(k, it), hmem2, rfl⟩
  · intro hk
    obtain ⟨⟨k0, it⟩, hmem, hfst⟩ := List.mem_map.mp hk
    cases hfst
    obtain ⟨hmem1, hlive⟩ := List.mem_filter.mp hmem
    have hord := hwf.2.2.2.1 k0 (List.mem_map.mpr ⟨(k0, it), hmem1, rfl⟩)
    refine List.mem_filter.mpr ⟨hord, ?_⟩
    rw [keyLiveB, mapGet_eq_some_of_mem hwf.1 hmem1]
    exact hlive

end AdvancedCache

namespace AdvancedCache

variable {T : Type}

theorem export_keys_sublist_list (now : Nat) :
    ∀ l : List (String × CacheItem T),
      List.Sublist
        ((l.filterMap (fun p =>
          if now ≤ p.2.expiresAt
          then some (p.1, (⟨p.2.data, p.2.timestamp, p.2.expiresAt⟩ : SnapshotEntry T))
          else none)).map Prod.fst)
        (l.map Prod.fst) := by
  intro l
  induction l with
  | nil => simp
  | cons p rest ih =>
    by_cases h : now ≤ p.2.expiresAt
    · simpa [List.filterMap_cons, h] using List.Sublist.cons₂ p.1 ih
    · simpa [List.filterMap_cons, h] using List.Sublist.cons p.1 ih

theorem mapGet_export_list (now : Nat) (k : String) :
    ∀ l : List (String × CacheItem T), (l.map Prod.fst).Nodup →
      mapGet k (l.filterMap (fun p =>
        if now ≤ p.2.expiresAt
        then some (p.1, (⟨p.2.data, p.2.timestamp, p.2.expiresAt⟩ : SnapshotEntry T))
        else none))
      = (mapGet k l).bind (fun it =>
          if now ≤ it.expiresAt
          then some (⟨it.data, it.timestamp, it.expiresAt⟩ : SnapshotEntry T)
          else none) := by
  intro l
  induction l with
  | nil => simp [mapGet]
  | cons p rest ih =>
    intro hnd
    obtain ⟨k1, it1⟩ := p
    rw [List.map_cons, List.nodup_cons] at hnd
    by_cases hk : k1 = k
    · subst hk
      by_cases hl : now ≤ it1.expiresAt
      · simp [List.filterMap_cons, hl, mapGet]
      · have hno : mapGet k1 (rest.filterMap (fun p =>
            if now ≤ p.2.expiresAt
            then some (p.1, (⟨p.2.data, p.2.timestamp, p.2.expiresAt⟩ : SnapshotEntry T))
            else none)) = none := by
          refine mapGet_eq_none_iff.mpr ?_
          intro hmem
          exact hnd.1 ((export_keys_sublist_list now rest).subset hmem)
        simp [List.filterMap_cons, hl, mapGet, hno]
    · by_cases hl : now ≤ it1.expiresAt
      · simp [List.filterMap_cons, hl, mapGet, hk, ih hnd.2]
      · simp [List.filterMap_cons, hl, mapGet, hk, ih hnd.2]

theorem mapGet_exportCache (now : Nat) (c : AdvancedCache T) (k : String)
    (hnd : (c.cache.map Prod.fst).Nodup) :
    mapGet k (exportCache now c)
      = (mapGet k c.cache).bind (fun it =>
          if now ≤ it.expiresAt
          then some (⟨it.data, it.timestamp, it.expiresAt⟩ : SnapshotEntry T)
          else none) :=
  mapGet_export_list now k c.cache hnd

theorem exportCache_keys_nodup (now : Nat) (c : AdvancedCache T)
    (hnd : (c.cache.map Prod.fst).Nodup) :
    ((exportCache now c).map Prod.fst).Nodup :=
  List.Nodup.sublist (export_keys_sublist_list now c.cache) hnd

theorem mapGet_importCache_not_mem (now : Nat) (k : String) :
    ∀ (data : List (String × SnapshotEntry T)) (st : AdvancedCache T),
      k ∉ data.map Prod.fst →
      mapGet k (importCache now data st).cache = mapGet k st.cache := by
  intro data
  induction data with
  | nil => intro st _; rfl
  | cons p rest ih =>
    intro st h
    rw [List.map_cons] at h
    have hk : k ≠ p.1 := by
      intro he
      exact h (by rw [he]; exact List.mem_cons_self _ _)
    have hrest : k ∉ rest.map Prod.fst := fun hm => h (List.mem_cons_of_mem _ hm)
    rw [importCache, List.foldl_cons, ← importCache, ih _ hrest]
    by_cases hg : p.2.expiresAt ≠ 0 ∧ now ≤ p.2.expiresAt
    · simp [importOne, hg, mapGet_mapSet_ne hk]
    · simp [importOne, hg]

theorem mapGet_importCache (now : Nat) (k : String) :
    ∀ (data : List (String × SnapshotEntry T)) (st : AdvancedCache T),
      (data.map Prod.fst).Nodup →
      mapGet k (importCache now data st).cache
        = match mapGet k data with
          | some e =>
            if e.expiresAt ≠ 0 ∧ now ≤ e.expiresAt
            then some ⟨e.data, e.timestamp, e.expiresAt, k⟩
            else mapGet k st.cache
          | none => mapGet k st.cache := by
  intro data
  induction data with
  | nil => intro st _; simp [importCache, mapGet]
  | cons p rest ih =>
    intro st hnd
    obtain ⟨k1, e⟩ := p
    rw [List.map_cons, List.nodup_cons] at hnd
    rw [importCache, List.foldl_cons, ← importCache]
    by_cases hk : k1 = k
    · subst hk
      rw [mapGet_importCache_not_mem now k1 rest _ hnd.1]
      by_cases hg : e.expiresAt ≠ 0 ∧ now ≤ e.expiresAt
      · simp [importOne, hg, mapGet, mapGet_mapSet_self]
      · simp [importOne, hg, mapGet]
    · rw [ih _ hnd.2]
      have hone : mapGet k (importOne now st (k1, e)).cache = mapGet k st.cache := by
        by_cases hg : e.expiresAt ≠ 0 ∧ now ≤ e.expiresAt
        · simp [importOne, hg, mapGet_mapSet_ne (Ne.symm hk)]
        · simp [importOne, hg]
      cases hm : mapGet k rest with
      | none => simp [mapGet, hk, hm, hone]
      | some e2 => simp [mapGet, hk, hm, hone]

end AdvancedCache

/-- C1 (counterexample): restore (AdvancedCache.import) performs no capacity
check, so restoring two live snapshot entries into an empty cache with
maxSize 1 leaves the cache holding 2 entries, exceeding the configured
maximum; the claimed size invariant fails for the restore operation. -/
theorem cache_capacity_counterexample :
    ((AdvancedCache.emptyCache ⟨100, 1⟩ : AdvancedCache Nat).cache.length
        ≤ (⟨100, 1⟩ : CacheConfig).maxSize) ∧
    ¬ ((AdvancedCache.importCache 5 [("a", ⟨0, 0, 10⟩), ("b", ⟨1, 0, 10⟩)]
          (AdvancedCache.emptyCache ⟨100, 1⟩ : AdvancedCache Nat)).cache.length
        ≤ (⟨100, 1⟩ : CacheConfig).maxSize) := by
  decide

/-- C1 (amended): for every public cache operation other than restore
(set, get, has, delete, clear, keys, snapshot), applied to a well-formed
cache holding at most maxSize entries, with maxSize at least 1 and no
stored key equal to the empty string, the number of stored entries after
the operation returns is still at most maxSize.  restore enforces no
capacity bound, and an empty-string LRU key defeats the falsy eviction
guard of set, hence the two extra hypotheses. -/
theorem cache_capacity_invariant {T : Type} (c : AdvancedCache T) (now : Nat)
    (op : AdvancedCache.CacheOp T)
    (hwf : AdvancedCache.wf c)
    (hsize : c.cache.length ≤ c.config.maxSize)
    (hM : 1 ≤ c.config.maxSize)
    (hkey : "" ∉ c.cache.map Prod.fst) :
    (AdvancedCache.applyOp now c op).cache.length ≤ c.config.maxSize := by
  have hlen1 : (AdvancedCache.cleanup now c).cache.length ≤ c.cache.length :=
    List.Sublist.length_le (AdvancedCache.cleanup_cache_sublist now c)
  cases op with
  | setOp k v m =>
    simp only [AdvancedCache.applyOp, AdvancedCache.set]
    by_cases hfull : (AdvancedCache.cleanup now c).cache.length
        ≥ (AdvancedCache.cleanup now c).config.maxSize
    · have hfe : (AdvancedCache.cleanup now c).cache.length = c.config.maxSize := by
        have hc : (AdvancedCache.cleanup now c).config.maxSize = c.config.maxSize := rfl
        omega
      have hne : (AdvancedCache.cleanup now c).cache ≠ [] := by
        intro h0
        rw [h0] at hfe
        simp at hfe
        omega
      obtain ⟨p, hp⟩ := List.exists_mem_of_ne_nil _ hne
      have hpk : p.1 ∈ (AdvancedCache.cleanup now c).cache.map Prod.fst :=
        List.mem_map.mpr ⟨p, hp, rfl⟩
      have hmemord : p.1 ∈ (AdvancedCache.cleanup now c).accessOrder :=
        (AdvancedCache.mem_cleanup_accessOrder_iff now c hwf p.1).mpr hpk
      cases hord : (AdvancedCache.cleanup now c).accessOrder with
      | nil => rw [hord] at hmemord; simp at hmemord
      | cons lru rest =>
        have hlmem : lru ∈ (AdvancedCache.cleanup now c).accessOrder := by
          rw [hord]; exact List.mem_cons_self lru rest
        have hlkeys : lru ∈ (AdvancedCache.cleanup now c).cache.map Prod.fst :=
          (AdvancedCache.mem_cleanup_accessOrder_iff now c hwf lru).mp hlmem
        have hlc : lru ∈ c.cache.map Prod.fst :=
          (List.Sublist.map Prod.fst
            (AdvancedCache.cleanup_cache_sublist now c)).subset hlkeys
        have hlne : lru ≠ "" := by
          rintro rfl
          exact hkey hlc
        have hdl : (mapDelete lru (AdvancedCache.cleanup now c).cache).length + 1
            = (AdvancedCache.cleanup now c).cache.length := mapDelete_length hlkeys
        rw [if_pos hfull]
        simp only [List.head?_cons, AdvancedCache.deleteKey, if_neg hlne]
        have hms := mapSet_length_le (k := k)
          (v := (⟨v, now, now + (match m with
            | some mm => if mm = 0 then c.config.maxAge else mm
            | none => c.config.maxAge), k⟩ : CacheItem T))
          (l := mapDelete lru (AdvancedCache.cleanup now c).cache)
        omega
    · rw [if_neg hfull]
      push_neg at hfull
      have hlt : (AdvancedCache.cleanup now c).cache.length < c.config.maxSize := hfull
      have hms := mapSet_length_le (k := k)
        (v := (⟨v, now, now + (match m with
          | some mm => if mm = 0 then c.config.maxAge else mm
          | none => c.config.maxAge), k⟩ : CacheItem T))
        (l := (AdvancedCache.cleanup now c).cache)
      omega
  | getOp k =>
    cases h : mapGet k c.cache with
    | none => simpa [AdvancedCache.applyOp, AdvancedCache.get, h] using hsize
    | some it =>
      by_cases he : it.expiresAt < now
      · have hd := mapDelete_length_le (k := k) (l := c.cache)
        simp only [AdvancedCache.applyOp, AdvancedCache.get, h, he, if_pos,
          AdvancedCache.deleteKey]
        omega
      · simpa [AdvancedCache.applyOp, AdvancedCache.get, h, he] using hsize
  | hasOp k =>
    cases h : mapGet k c.cache with
    | none => simpa [AdvancedCache.applyOp, AdvancedCache.hasKey, h] using hsize
    | some it =>
      by_cases he : it.expiresAt < now
      · have hd := mapDelete_length_le (k := k) (l := c.cache)
        simp only [AdvancedCache.applyOp, AdvancedCache.hasKey, h, he, if_pos,
          AdvancedCache.deleteKey]
        omega
      · simpa [AdvancedCache.applyOp, AdvancedCache.hasKey, h, he] using hsize
  | deleteOp k =>
    have hd := mapDelete_length_le (k := k) (l := c.cache)
    simp only [AdvancedCache.applyOp, AdvancedCache.deleteKey]
    omega
  | clearOp => simp [AdvancedCache.applyOp, AdvancedCache.clear]
  | keysOp =>
    simp only [AdvancedCache.applyOp, AdvancedCache.getAllKeys]
    omega
  | snapshotOp => exact hsize

/-- C2: on any cache state (hence after any preceding operation sequence),
a get issued at a time strictly after the expiry timestamp recorded for the
key returns absent, physically removes the entry from both the Map and the
accessOrder Set, and an absent key behaves identically; afterwards the key
is indistinguishable from never having been present. -/
theorem cache_get_after_expiry {T : Type} (c : AdvancedCache T) (key : String)
    (now : Nat)
    (hwf : AdvancedCache.wf c)
    (hexp : ∀ it : CacheItem T, mapGet key c.cache = some it → it.expiresAt < now) :
    (AdvancedCache.get key now c).1 = none ∧
    mapGet key (AdvancedCache.get key now c).2.cache = none ∧
    key ∉ (AdvancedCache.get key now c).2.accessOrder := by
  cases h : mapGet key c.cache with
  | none =>
    refine ⟨by simp [AdvancedCache.get, h], by simp [AdvancedCache.get, h, h], ?_⟩
    intro hmem
    simp only [AdvancedCache.get, h] at hmem
    exact (mapGet_eq_none_iff.mp h) (hwf.2.2.1 key hmem)
  | some it =>
    have he := hexp it h
    refine ⟨by simp [AdvancedCache.get, h, he], ?_, ?_⟩
    · simp only [AdvancedCache.get, h, he, if_pos, AdvancedCache.deleteKey]
      exact mapGet_mapDelete_self hwf.1
    · simp only [AdvancedCache.get, h, he, if_pos, AdvancedCache.deleteKey]
      exact not_mem_eraseKey_self hwf.2.1

/-- C5 (counterexample): the source evicts with
`if (lruKey) { this.delete(lruKey); }`, and the empty string is falsy in
JavaScript, so when the least-recently-used surviving key is the empty
string nothing is evicted: setting a new key into a full well-formed cache
of maxSize 1 whose only (hence LRU) key is the empty string leaves both
entries stored and the size exceeds the maximum, falsifying the claim as
stated. -/
theorem cache_set_lru_counterexample :
    (AdvancedCache.wf (⟨[("", ⟨0, 0, 10, ""⟩)], [""], ⟨100, 1⟩⟩ : AdvancedCache Nat)) ∧
    (AdvancedCache.cleanup 0
        (⟨[("", ⟨0, 0, 10, ""⟩)], [""], ⟨100, 1⟩⟩ : AdvancedCache Nat)).cache.length
      = (⟨100, 1⟩ : CacheConfig).maxSize ∧
    mapGet ""
        (AdvancedCache.set "x" (7 : Nat) none 0
          (⟨[("", ⟨0, 0, 10, ""⟩)], [""], ⟨100, 1⟩⟩ : AdvancedCache Nat)).cache
      = some ⟨0, 0, 10, ""⟩ ∧
    ¬ ((AdvancedCache.set "x" (7 : Nat) none 0
          (⟨[("", ⟨0, 0, 10, ""⟩)], [""], ⟨100, 1⟩⟩ : AdvancedCache Nat)).cache.length
        ≤ (⟨100, 1⟩ : CacheConfig).maxSize) := by
  decide

/-- C5 (amended): on a well-formed cache that is exactly at capacity after
the internal sweep of expired entries, set evicts precisely the
least-recently-used surviving entry, namely the front of the swept
accessOrder set (recency order of last successful get or set, insertion
counting as a touch), provided that key is not the empty string (the falsy
guard of the source skips it); every other surviving entry is kept, the new
entry is stored, and the resulting size does not exceed the maximum. -/
theorem cache_set_evicts_lru {T : Type} (c : AdvancedCache T) (now : Nat)
    (key : String) (v : T) (lru : String) (ord1 : List String)
    (hwf : AdvancedCache.wf c)
    (hfull : (AdvancedCache.cleanup now c).cache.length = c.config.maxSize)
    (hord : (AdvancedCache.cleanup now c).accessOrder = lru :: ord1)
    (hne : lru ≠ "") :
    mapGet key (AdvancedCache.set key v none now c).cache
        = some ⟨v, now, now + c.config.maxAge, key⟩ ∧
    (∀ k, k ≠ key → mapGet k (AdvancedCache.set key v none now c).cache
        = if k = lru then none
          else mapGet k (AdvancedCache.cleanup now c).cache) ∧
    (AdvancedCache.set key v none now c).cache.length ≤ c.config.maxSize := by
  have hlmem : lru ∈ (AdvancedCache.cleanup now c).accessOrder := by
    rw [hord]; exact List.mem_cons_self lru ord1
  have hlkeys : lru ∈ (AdvancedCache.cleanup now c).cache.map Prod.fst :=
    (AdvancedCache.mem_cleanup_accessOrder_iff now c hwf lru).mp hlmem
  have hnd1 : ((AdvancedCache.cleanup now c).cache.map Prod.fst).Nodup :=
    AdvancedCache.cleanup_keys_nodup now c hwf.1
  have hge : (AdvancedCache.cleanup now c).cache.length
      ≥ (AdvancedCache.cleanup now c).config.maxSize := by
    have hc : (AdvancedCache.cleanup now c).config.maxSize = c.config.maxSize := rfl
    omega
  have hdl : (mapDelete lru (AdvancedCache.cleanup now c).cache).length + 1
      = (AdvancedCache.cleanup now c).cache.length := mapDelete_length hlkeys
  refine ⟨?_, ?_, ?_⟩
  · simp only [AdvancedCache.set, hord, if_pos hge, List.head?_cons,
      if_neg hne, AdvancedCache.deleteKey]
    exact mapGet_mapSet_self
  · intro k hk
    simp only [AdvancedCache.set, hord, if_pos hge, List.head?_cons,
      if_neg hne, AdvancedCache.deleteKey]
    rw [mapGet_mapSet_ne hk]
    by_cases hkl : k = lru
    · subst hkl
      rw [if_pos rfl]
      exact mapGet_mapDelete_self hnd1
    · rw [if_neg hkl]
      exact mapGet_mapDelete_ne hkl
  · simp only [AdvancedCache.set, hord, if_pos hge, List.head?_cons,
      if_neg hne, AdvancedCache.deleteKey]
    have hms := mapSet_length_le (k := key)
      (v := (⟨v, now, now + c.config.maxAge, key⟩ : CacheItem T))
      (l := mapDelete lru (AdvancedCache.cleanup now c).cache)
    omega

/-- C8: snapshotting a well-formed cache and restoring the snapshot into a
fresh cache of the same configuration, with no time passing between the two
(so no TTL boundary is crossed) and at a positive clock value as Date.now
always returns, reproduces exactly the non-expired entries: every
non-expired key maps to the same value with its original timestamps, and
every expired entry is not reloaded. -/
theorem cache_snapshot_restore_roundtrip {T : Type} (c : AdvancedCache T)
    (now : Nat) (cfg : CacheConfig)
    (hwf : AdvancedCache.wf c) (hnow : 0 < now) :
    ∀ k, mapGet k (AdvancedCache.importCache now (AdvancedCache.exportCache now c)
        (AdvancedCache.emptyCache cfg)).cache
      = (mapGet k c.cache).bind (fun it =>
          if now ≤ it.expiresAt then some it else none) := by
  intro k
  have hnd : (c.cache.map Prod.fst).Nodup := hwf.1
  rw [AdvancedCache.mapGet_importCache now k _ _
      (AdvancedCache.exportCache_keys_nodup now c hnd),
    AdvancedCache.mapGet_exportCache now c k hnd]
  cases hm : mapGet k c.cache with
  | none => simp [AdvancedCache.emptyCache, mapGet]
  | some it =>
    by_cases hl : now ≤ it.expiresAt
    · have hkey : it.key = k := hwf.2.2.2.2 (k, it) (mem_of_mapGet_eq_some hm)
      have h0 : it.expiresAt ≠ 0 := by omega
      simp only [Option.bind, hl, if_pos, h0, ne_eq, not_false_iff, true_and, if_true]
      cases it with
      | mk d ts ea ky =>
        simp at hkey
        simp [hkey]
    · simp [hl, AdvancedCache.emptyCache, mapGet]

theorem find?_eq_head?_filter {α : Type} (p : α → Bool) :
    ∀ l : List α, l.find? p = (l.filter p).head? := by
  intro l
  induction l with
  | nil => rfl
  | cons a rest ih =>
    by_cases h : p a = true
    · rw [List.find?_cons_of_pos _ h, List.filter_cons_of_pos h, List.head?_cons]
    · rw [List.find?_cons_of_neg _ h, List.filter_cons_of_neg h, ih]

theorem find?_after_rollback_map {T : Type} (keyOf : T → String) (k : String)
    (u orig : T) (hu : keyOf u = k) (horig : keyOf orig = k) :
    ∀ l : List T, l.find? (fun item => decide (keyOf item = k)) = some orig →
      ((l.map (fun item => if keyOf item = k then u else item)).map
          (fun item => if keyOf item = k then orig else item)).find?
        (fun item => decide (keyOf item = k)) = some orig := by
  intro l
  induction l with
  | nil => simp
  | cons a rest ih =>
    intro h
    by_cases ha : keyOf a = k
    · rw [List.find?_cons_of_pos _ (by simpa using ha)] at h
      injection h with h
      subst h
      simp only [List.map_cons, if_pos ha, if_pos hu]
      rw [List.find?_cons_of_pos _ (by simpa using horig)]
    · rw [List.find?_cons_of_neg _ (by simpa using ha)] at h
      simp only [List.map_cons, if_neg ha]
      rw [List.find?_cons_of_neg _ (by simpa using ha), ih h]

/-- C3: when the wrapped server call behind optimisticUpdate rejects, the
item at the mutated key is restored to exactly the pre-mutation value, no
item is removed (the collection keeps its length), the tracked operation
for that key is cleared, and the failure is re-raised after the cleanup. -/
theorem optimistic_update_rollback {T E : Type} (keyOf : T → String)
    (u orig : T) (e : E) (t : Nat) (s : OptState T)
    (hops : (s.ops.map Prod.fst).Nodup)
    (hfind : s.data.find? (fun item => decide (keyOf item = keyOf u)) = some orig) :
    (optimisticUpdate keyOf u (Except.error e) t s).1.data.find?
        (fun item => decide (keyOf item = keyOf u)) = some orig ∧
    (optimisticUpdate keyOf u (Except.error e) t s).1.data.length = s.data.length ∧
    mapGet (keyOf u) (optimisticUpdate keyOf u (Except.error e) t s).1.ops = none ∧
    (optimisticUpdate keyOf u (Except.error e) t s).2.1 = some e := by
  have horig : keyOf orig = keyOf u := by
    have := List.find?_some hfind
    simpa using this
  refine ⟨?_, ?_, ?_, ?_⟩
  · simp only [optimisticUpdate, hfind]
    exact find?_after_rollback_map keyOf (keyOf u) u orig rfl horig s.data hfind
  · simp [optimisticUpdate, hfind]
  · simp only [optimisticUpdate, hfind]
    exact mapGet_mapDelete_self (mapSet_keys_nodup hops)
  · simp [optimisticUpdate, hfind]

/-- C7 (counterexample): when two items of local state share the key, the
optimistic delete filters out both but the failed reconciliation re-inserts
only the first, so the resulting collection does not have the same
membership as before; the claim as stated, quantified over every local
state containing an item with the key, is false. -/
theorem optimistic_delete_counterexample :
    ((("k", 2) : String × Nat) ∈
      (⟨[("k", 1), ("k", 2)], []⟩ : OptState (String × Nat)).data) ∧
    (optimisticDelete Prod.fst "k" (Except.error (0 : Nat)) 0
        (⟨[("k", 1), ("k", 2)], []⟩ : OptState (String × Nat))).1.data
      = [("k", 1)] ∧
    ((("k", 2) : String × Nat) ∉
      (optimisticDelete Prod.fst "k" (Except.error (0 : Nat)) 0
        (⟨[("k", 1), ("k", 2)], []⟩ : OptState (String × Nat))).1.data) := by
  decide

/-- C7 (amended): when exactly one item of local state carries the deleted
key, a rejected optimisticDelete leaves the collection a permutation of
the original (same membership, order not guaranteed), the removed item is
back with its original field values, the tracked operation for the key is
cleared, and the failure is re-raised. -/
theorem optimistic_delete_rollback {T E : Type} (keyOf : T → String)
    (itemKey : String) (orig : T) (e : E) (t : Nat) (s : OptState T)
    (hops : (s.ops.map Prod.fst).Nodup)
    (hone : s.data.filter (fun item => decide (keyOf item = itemKey)) = [orig]) :
    List.Perm (optimisticDelete keyOf itemKey (Except.error e) t s).1.data s.data ∧
    orig ∈ (optimisticDelete keyOf itemKey (Except.error e) t s).1.data ∧
    mapGet itemKey (optimisticDelete keyOf itemKey (Except.error e) t s).1.ops = none ∧
    (optimisticDelete keyOf itemKey (Except.error e) t s).2.1 = some e := by
  have hfind : s.data.find? (fun item => decide (keyOf item = itemKey)) = some orig := by
    rw [find?_eq_head?_filter, hone]
    rfl
  refine ⟨?_, ?_, ?_, ?_⟩
  · simp only [optimisticDelete, hfind]
    have h1 : List.Perm
        (s.data.filter (fun item => !decide (keyOf item = itemKey)) ++ [orig])
        ([orig] ++ s.data.filter (fun item => !decide (keyOf item = itemKey))) :=
      List.perm_append_comm
    have h2 := List.filter_append_perm
      (fun item => decide (keyOf item = itemKey)) s.data
    rw [hone] at h2
    exact h1.trans h2
  · simp only [optimisticDelete, hfind]
    exact List.mem_append_right _ (List.mem_singleton_self orig)
  · simp only [optimisticDelete, hfind]
    exact mapGet_mapDelete_self (mapSet_keys_nodup hops)
  · simp [optimisticDelete, hfind]

/-- C10: when local state contains no item with the targeted key, both
optimisticUpdate and optimisticDelete return immediately as complete
no-ops: the state (data and tracked operations) is unchanged, no error is
raised, and the wrapped server call is never invoked. -/
theorem optimistic_noop_on_missing_key {T E : Type} (keyOf : T → String)
    (u : T) (k : String) (resU : Except E T) (resD : Except E Unit) (t : Nat)
    (s : OptState T)
    (hu : s.data.find? (fun item => decide (keyOf item = keyOf u)) = none)
    (hd : s.data.find? (fun item => decide (keyOf item = k)) = none) :
    optimisticUpdate keyOf u resU t s = (s, none, false) ∧
    optimisticDelete keyOf k resD t s = (s, none, false) := by
  refine ⟨?_, ?_⟩
  · simp [optimisticUpdate, hu]
  · simp [optimisticDelete, hd]

/-- C4: every connect failure increments the reconnect-attempt counter;
while the pre-increment counter is below the ceiling of 5, exactly one
retry is scheduled with delay 2000 * 2 ^ attempts milliseconds and no
terminal failure; once the counter reaches the ceiling no retry is ever
scheduled again and the terminal user-visible failure is surfaced.  Six
consecutive failures from a fresh connecting state yield exactly five
scheduled retries with the strictly increasing delays 2s 4s 8s 16s 32s,
then the terminal failure on the sixth with no retry. -/
theorem reconnect_backoff (st : ConnectionState) (errMsg msg2 : String) :
    ((onConnectError errMsg st).1.reconnectAttempts = st.reconnectAttempts + 1) ∧
    (st.reconnectAttempts < 5 →
      (onConnectError errMsg st).2
        = (some (2000 * 2 ^ st.reconnectAttempts), false)) ∧
    (5 ≤ st.reconnectAttempts → (onConnectError errMsg st).2 = (none, true)) ∧
    runFailures msg2 6 ⟨false, true, none, 0⟩
      = [(some 2000, false), (some 4000, false), (some 8000, false),
         (some 16000, false), (some 32000, false), (none, true)] := by
  refine ⟨?_, ?_, ?_, ?_⟩
  · by_cases h : st.reconnectAttempts < maxReconnectAttempts <;>
      simp [onConnectError, h]
  · intro h
    have hlt : st.reconnectAttempts < maxReconnectAttempts := h
    simp [onConnectError, hlt, reconnectDelay]
  · intro h
    have hge : ¬ st.reconnectAttempts < maxReconnectAttempts := by
      rw [maxReconnectAttempts]
      omega
    simp [onConnectError, hge]
  · norm_num [runFailures, onConnectError, maxReconnectAttempts, reconnectDelay]

/-- C6: publishing an order event delivers the verbatim event to a socket
exactly when it is in the authenticated room, the enriched detail-scoped
copy exactly when the socket explicitly joined the room named after the
entity id (a socket that never joined observes no detail-scoped message),
and one synthesized notification to the authenticated room whose severity
is success for created, warning for deleted, and info for every other
kind. -/
theorem broadcast_rooms_and_severity (uid ts : String) (u : OrderUpdate)
    (s : ClientConn) :
    deliveredTo s (broadcastOrderUpdate uid ts u)
      = (if "authenticated_users" ∈ s.rooms
          then [Emission.orderUpdate "authenticated_users" u] else [])
        ++ (if ("order_" ++ u.orderId) ∈ s.rooms
          then [Emission.orderDetailUpdate ("order_" ++ u.orderId) u true] else [])
        ++ (if "authenticated_users" ∈ s.rooms
          then [Emission.notificationMsg "authenticated_users"
            (mkOrderNotification uid ts u)] else [])
      ∧
    (mkOrderNotification uid ts u).type
      = (match u.type with
        | UpdateType.created => Severity.success
        | UpdateType.deleted => Severity.warning
        | _ => Severity.info) := by
  refine ⟨?_, rfl⟩
  by_cases h1 : "authenticated_users" ∈ s.rooms <;>
    by_cases h2 : ("order_" ++ u.orderId) ∈ s.rooms <;>
      simp [deliveredTo, broadcastOrderUpdate, Emission.room, h1, h2]

/-- C9: a bulk update of N entities is issued as exactly one
collection-typed push to the authenticated room carrying the whole array
of N records, with no singular order-update push at all, and the client
handles the collection form in a single step by a handler distinct from
the singular-form handler: it prepends all N records at once and keeps a
prefix of the previous list, 50 - N entries of it when N is at most 50
and, by the negative-end-index semantics of the slice in the source, all
but N - 50 of its entries otherwise. -/
theorem bulk_update_single_push (us prev : List OrderUpdate) (u : OrderUpdate) :
    broadcastBulkUpdate us = [Emission.bulkOrderUpdate "authenticated_users" us] ∧
    (broadcastBulkUpdate us).length = 1 ∧
    (broadcastBulkUpdate us).countP
        (fun em => match em with
          | Emission.orderUpdate _ _ => true
          | _ => false) = 0 ∧
    applyOrderUpdatesMsg (ClientMsg.bulk_order_update us) prev
      = us ++ (if us.length ≤ 50
          then prev.take (50 - us.length)
          else prev.take (prev.length - (us.length - 50))) ∧
    applyOrderUpdatesMsg (ClientMsg.order_update u) prev = u :: prev.take 49 := by
  refine ⟨rfl, rfl, rfl, ?_, rfl⟩
  simp only [applyOrderUpdatesMsg, jsSliceTo]
  by_cases h : us.length ≤ 50
  · have h1 : ¬ ((50 : Int) - (us.length : Int) < 0) := by omega
    have h2 : ((50 : Int) - (us.length : Int)).toNat = 50 - us.length := by omega
    rw [if_neg h1, if_pos h, h2]
  · have h1 : (50 : Int) - (us.length : Int) < 0 := by omega
    have h2 : (-((50 : Int) - (us.length : Int))).toNat = us.length - 50 := by omega
    rw [if_pos h1, if_neg h, h2]

/-- Witness for C1 (amended): a concrete full well-formed cache of maxSize 1
receiving a set of a fresh key stays within capacity. -/
theorem cache_capacity_invariant_witness :
    AdvancedCache.wf
      (⟨[("a", ⟨0, 0, 10, "a"⟩)], ["a"], ⟨100, 1⟩⟩ : AdvancedCache Nat) ∧
    (⟨[("a", ⟨0, 0, 10, "a"⟩)], ["a"], ⟨100, 1⟩⟩ : AdvancedCache Nat).cache.length
      ≤ (⟨[("a", ⟨0, 0, 10, "a"⟩)], ["a"], ⟨100, 1⟩⟩ : AdvancedCache Nat).config.maxSize ∧
    1 ≤ (⟨[("a", ⟨0, 0, 10, "a"⟩)], ["a"], ⟨100, 1⟩⟩ : AdvancedCache Nat).config.maxSize ∧
    "" ∉ (⟨[("a", ⟨0, 0, 10, "a"⟩)], ["a"], ⟨100, 1⟩⟩ : AdvancedCache Nat).cache.map
        Prod.fst ∧
    (AdvancedCache.applyOp 0
        (⟨[("a", ⟨0, 0, 10, "a"⟩)], ["a"], ⟨100, 1⟩⟩ : AdvancedCache Nat)
        (AdvancedCache.CacheOp.setOp "b" 1 none)).cache.length
      ≤ (⟨[("a", ⟨0, 0, 10, "a"⟩)], ["a"], ⟨100, 1⟩⟩ : AdvancedCache Nat).config.maxSize :=
  ⟨by decide, by decide, by decide, by decide,
    cache_capacity_invariant _ 0 _ (by decide) (by decide) (by decide) (by decide)⟩

/-- Witness for C2: a get at time 4 of a key whose entry expired at 3
returns absent and removes the entry from Map and accessOrder. -/
theorem cache_get_after_expiry_witness :
    AdvancedCache.wf
      (⟨[("a", ⟨5, 0, 3, "a"⟩)], ["a"], ⟨100, 10⟩⟩ : AdvancedCache Nat) ∧
    (AdvancedCache.get "a" 4
      (⟨[("a", ⟨5, 0, 3, "a"⟩)], ["a"], ⟨100, 10⟩⟩ : AdvancedCache Nat)).1 = none ∧
    mapGet "a" (AdvancedCache.get "a" 4
      (⟨[("a", ⟨5, 0, 3, "a"⟩)], ["a"], ⟨100, 10⟩⟩ : AdvancedCache Nat)).2.cache = none ∧
    "a" ∉ (AdvancedCache.get "a" 4
      (⟨[("a", ⟨5, 0, 3, "a"⟩)], ["a"], ⟨100, 10⟩⟩ : AdvancedCache Nat)).2.accessOrder :=
  ⟨by decide,
    cache_get_after_expiry _ "a" 4 (by decide)
      (by
        intro it h
        simp [mapGet] at h
        subst h
        decide)⟩

/-- Witness for C5 (amended): in a full two-entry cache with recency order
a then b, setting a fresh key evicts exactly a, stores the new entry, and
stays within capacity. -/
theorem cache_set_evicts_lru_witness :
    (AdvancedCache.cleanup 0
        (⟨[("a", ⟨1, 0, 10, "a"⟩), ("b", ⟨2, 0, 10, "b"⟩)], ["a", "b"],
          ⟨100, 2⟩⟩ : AdvancedCache Nat)).cache.length
      = (⟨100, 2⟩ : CacheConfig).maxSize ∧
    mapGet "x" (AdvancedCache.set "x" (7 : Nat) none 0
        (⟨[("a", ⟨1, 0, 10, "a"⟩), ("b", ⟨2, 0, 10, "b"⟩)], ["a", "b"],
          ⟨100, 2⟩⟩ : AdvancedCache Nat)).cache = some ⟨7, 0, 0 + 100, "x"⟩ ∧
    mapGet "a" (AdvancedCache.set "x" (7 : Nat) none 0
        (⟨[("a", ⟨1, 0, 10, "a"⟩), ("b", ⟨2, 0, 10, "b"⟩)], ["a", "b"],
          ⟨100, 2⟩⟩ : AdvancedCache Nat)).cache = none ∧
    (AdvancedCache.set "x" (7 : Nat) none 0
        (⟨[("a", ⟨1, 0, 10, "a"⟩), ("b", ⟨2, 0, 10, "b"⟩)], ["a", "b"],
          ⟨100, 2⟩⟩ : AdvancedCache Nat)).cache.length
      ≤ (⟨100, 2⟩ : CacheConfig).maxSize := by
  have h := cache_set_evicts_lru
    (⟨[("a", ⟨1, 0, 10, "a"⟩), ("b", ⟨2, 0, 10, "b"⟩)], ["a", "b"],
      ⟨100, 2⟩⟩ : AdvancedCache Nat) 0 "x" (7 : Nat) "a" ["b"]
    (by decide) (by decide) (by decide) (by decide)
  refine ⟨by decide, h.1, ?_, h.2.2⟩
  simpa using h.2.1 "a" (by decide)

/-- Witness for C8: exporting a two-entry cache (one live, one expired) at
time 5 and importing into a fresh cache reproduces the live entry and drops
the expired one. -/
theorem cache_snapshot_restore_roundtrip_witness :
    AdvancedCache.wf
      (⟨[("a", ⟨7, 1, 9, "a"⟩), ("b", ⟨8, 1, 3, "b"⟩)], ["a", "b"],
        ⟨100, 10⟩⟩ : AdvancedCache Nat) ∧
    mapGet "a" (AdvancedCache.importCache 5
        (AdvancedCache.exportCache 5
          (⟨[("a", ⟨7, 1, 9, "a"⟩), ("b", ⟨8, 1, 3, "b"⟩)], ["a", "b"],
            ⟨100, 10⟩⟩ : AdvancedCache Nat))
        (AdvancedCache.emptyCache ⟨100, 10⟩)).cache
      = (mapGet "a"
          (⟨[("a", ⟨7, 1, 9, "a"⟩), ("b", ⟨8, 1, 3, "b"⟩)], ["a", "b"],
            ⟨100, 10⟩⟩ : AdvancedCache Nat).cache).bind
          (fun it => if 5 ≤ it.expiresAt then some it else none) :=
  ⟨by decide,
    cache_snapshot_restore_roundtrip _ 5 ⟨100, 10⟩ (by decide) (by decide) "a"⟩

/-- Witness for C3: the spec scenario, an item with id o1 and amount 10
updated optimistically to amount 20 with a rejecting server call is rolled
back to amount 10, the tracked operation is cleared, and the error is
re-raised. -/
theorem optimistic_update_rollback_witness :
    (optimisticUpdate Prod.fst ("o1", 20) (Except.error "boom") 0
        (⟨[("o1", 10)], []⟩ : OptState (String × Nat))).1.data.find?
        (fun item => decide (Prod.fst item = Prod.fst (("o1", 20) : String × Nat)))
      = some ("o1", 10) ∧
    (optimisticUpdate Prod.fst ("o1", 20) (Except.error "boom") 0
        (⟨[("o1", 10)], []⟩ : OptState (String × Nat))).1.data.length
      = (⟨[("o1", 10)], []⟩ : OptState (String × Nat)).data.length ∧
    mapGet "o1" (optimisticUpdate Prod.fst ("o1", 20) (Except.error "boom") 0
        (⟨[("o1", 10)], []⟩ : OptState (String × Nat))).1.ops = none ∧
    (optimisticUpdate Prod.fst ("o1", 20) (Except.error "boom") 0
        (⟨[("o1", 10)], []⟩ : OptState (String × Nat))).2.1 = some "boom" :=
  optimistic_update_rollback Prod.fst ("o1", 20) ("o1", 10) "boom" 0
    (⟨[("o1", 10)], []⟩ : OptState (String × Nat)) (by decide) (by decide)

/-- Witness for C7 (amended): the spec scenario, deleting item o2 from a
three-item list with a rejecting server call restores a permutation of the
original three items with o2 present again. -/
theorem optimistic_delete_rollback_witness :
    List.Perm (optimisticDelete Prod.fst "o2" (Except.error (5 : Nat)) 0
        (⟨[("o1", 1), ("o2", 2), ("o3", 3)], []⟩ : OptState (String × Nat))).1.data
      (⟨[("o1", 1), ("o2", 2), ("o3", 3)], []⟩ : OptState (String × Nat)).data ∧
    (("o2", 2) : String × Nat) ∈
      (optimisticDelete Prod.fst "o2" (Except.error (5 : Nat)) 0
        (⟨[("o1", 1), ("o2", 2), ("o3", 3)], []⟩ : OptState (String × Nat))).1.data ∧
    mapGet "o2" (optimisticDelete Prod.fst "o2" (Except.error (5 : Nat)) 0
        (⟨[("o1", 1), ("o2", 2), ("o3", 3)], []⟩ : OptState (String × Nat))).1.ops
      = none ∧
    (optimisticDelete Prod.fst "o2" (Except.error (5 : Nat)) 0
        (⟨[("o1", 1), ("o2", 2), ("o3", 3)], []⟩ : OptState (String × Nat))).2.1
      = some 5 :=
  optimistic_delete_rollback Prod.fst "o2" ("o2", 2) 5 0
    (⟨[("o1", 1), ("o2", 2), ("o3", 3)], []⟩ : OptState (String × Nat))
    (by decide) (by decide)

/-- Witness for C10: with no item keyed z in local state, both optimistic
flows are complete no-ops and the server call is never invoked. -/
theorem optimistic_noop_on_missing_key_witness :
    optimisticUpdate Prod.fst ("z", 9)
        (Except.ok ("z", 9) : Except Nat (String × Nat)) 0
        (⟨[("a", 1)], []⟩ : OptState (String × Nat))
      = ((⟨[("a", 1)], []⟩ : OptState (String × Nat)), none, false) ∧
    optimisticDelete Prod.fst "z" (Except.ok () : Except Nat Unit) 0
        (⟨[("a", 1)], []⟩ : OptState (String × Nat))
      = ((⟨[("a", 1)], []⟩ : OptState (String × Nat)), none, false) :=
  optimistic_noop_on_missing_key Prod.fst ("z", 9) "z"
    (Except.ok ("z", 9)) (Except.ok ()) 0
    (⟨[("a", 1)], []⟩ : OptState (String × Nat)) (by decide) (by decide)

/-- Witness for C4: the fourth failure (counter 3) schedules one retry
after 16 seconds and is not terminal. -/
theorem reconnect_backoff_witness :
    (3 : Nat) < 5 ∧
    (onConnectError "err" ⟨false, false, none, 3⟩).2 = (some 16000, false) := by
  refine ⟨by norm_num, ?_⟩
  have h := (reconnect_backoff ⟨false, false, none, 3⟩ "err" "m").2.1 (by norm_num)
  norm_num at h
  exact h
